import Mathlib

/-!
# ERA archive adapter — verification development

A shallow embedding of the ERA 7-Zip plugin adapter (`src/src/lib.rs`):
the archive session (`open` / `item_count` / `get_item` / `extract` /
`close` / `physical_size`), the format identity (`class_id`), and the
update planner (`update_streaming`).

Bytes are modelled as `List Nat`. The external collaborators (the `era`
container crate and the TEA encryption transform) are not under `src/`;
they are modelled from the spec's boundary contracts (§6) and marked
`Modelled from the spec:` below. The adapter functions themselves are
translated line by line from `src/src/lib.rs`.
-/

namespace Era

/-! ## Modelled external collaborators: encryption and compression -/

/-- Modelled from the spec: the fixed, format-default key material
("no per-archive key negotiation — the key material is a format
constant"). The TEA delta constant stands in for the key schedule. -/
def teaKeyConst : Nat := 0x9E3779B9

/-- Modelled from the spec: the external encryption transform applied to
whole archive byte streams (`EncryptWriter`), an opaque byte-level
primitive keyed by the fixed key material. Modelled as a keyed XOR
stream. -/
def encryptBytes (xs : List Nat) : List Nat :=
  xs.map (fun b => b ^^^ teaKeyConst)

/-- Modelled from the spec: the external decryption transform
(`DecryptReader`), inverse of `encryptBytes` under the same fixed key. -/
def decryptBytes (xs : List Nat) : List Nat :=
  xs.map (fun b => b ^^^ teaKeyConst)

/-- Modelled from the spec: the container's chunk compression codec
(opaque byte-level primitive). Modelled as a length-prefixed copy. -/
def compressBytes (xs : List Nat) : List Nat :=
  xs.length :: xs

/-- Modelled from the spec: the codec's decompression direction, the
inverse of `compressBytes`. -/
def decompressBytes (xs : List Nat) : List Nat :=
  xs.tail

/-- Modelled from the spec: the integrity digest ("a fixed-size checksum
computed over an entry's compressed bytes") — the tiger128 stand-in. -/
def tigerOf (xs : List Nat) : Nat :=
  xs.foldl (fun a b => a + b + 1) 0

/-! ## Modelled external collaborator: the container entry model -/

/-- Modelled from the spec: one container entry record — an optional
filename, the compressed payload, the decompressed-size and
compressed-chunk-size metadata, and the stored integrity digest. -/
structure EraEntry where
  filename : Option String
  payload : List Nat
  decompSize : Nat
  chunkSize : Nat
  digest : Nat
  deriving Repr, DecidableEq

/-! ## Modelled external collaborator: container serialization -/

/-- One-number encoding of a `Nat` "field". -/
def encNat (n : Nat) : List Nat := [n]

/-- Length-prefixed encoding of a byte list. -/
def encList (xs : List Nat) : List Nat := xs.length :: xs

/-- Encoding of a string as its character codes, length-prefixed. -/
def encStr (s : String) : List Nat := encList (s.data.map Char.toNat)

/-- Tagged encoding of an optional filename. -/
def encOptStr : Option String → List Nat
  | none => [0]
  | some s => 1 :: encStr s

/-- Encoding of one container entry. -/
def encEntry (e : EraEntry) : List Nat :=
  encOptStr e.filename ++ encList e.payload ++
    [e.decompSize, e.chunkSize, e.digest]

/-- Modelled from the spec: the writer's terminal serialization of "the
full container structure (filename table + entries) into a single
in-memory byte sequence". -/
def serializeEntries (es : List EraEntry) : List Nat :=
  es.length :: (es.map encEntry).flatten

/-- Decoder for one `Nat` field; fails on a truncated stream. -/
def decNat : List Nat → Option (Nat × List Nat)
  | [] => none
  | n :: rest => some (n, rest)

/-- Decoder taking exactly `k` bytes; fails on a truncated stream. -/
def decTake (k : Nat) (xs : List Nat) : Option (List Nat × List Nat) :=
  if k ≤ xs.length then some (xs.take k, xs.drop k) else none

/-- Decoder for a length-prefixed byte list. -/
def decList (xs : List Nat) : Option (List Nat × List Nat) := do
  let (n, r) ← decNat xs
  decTake n r

/-- Decoder for a length-prefixed string. -/
def decStr (xs : List Nat) : Option (String × List Nat) := do
  let (cs, r) ← decList xs
  pure (⟨cs.map Char.ofNat⟩, r)

/-- Decoder for a tagged optional filename. -/
def decOptStr (xs : List Nat) : Option (Option String × List Nat) := do
  let (tag, r) ← decNat xs
  match tag with
  | 0 => pure (none, r)
  | 1 => do
      let (s, r2) ← decStr r
      pure (some s, r2)
  | _ => none

/-- Decoder for one container entry. -/
def decEntry (xs : List Nat) : Option (EraEntry × List Nat) := do
  let (fn, r1) ← decOptStr xs
  let (pl, r2) ← decList r1
  let (ds, r3) ← decNat r2
  let (cs, r4) ← decNat r3
  let (dg, r5) ← decNat r4
  pure (⟨fn, pl, ds, cs, dg⟩, r5)

/-- Decoder for a counted sequence of entries. -/
def decEntries : Nat → List Nat → Option (List EraEntry × List Nat)
  | 0, xs => some ([], xs)
  | k + 1, xs => do
      let (e, r) ← decEntry xs
      let (es, r2) ← decEntries k r
      pure (e :: es, r2)

/-- Modelled from the spec: the external container parser
("parse(decrypted-byte-stream) → entry iterator"); `none` is a parse
failure. -/
def parseArchive (xs : List Nat) : Option (List EraEntry) := do
  let (n, r) ← decNat xs
  let (es, r2) ← decEntries n r
  if r2.isEmpty then pure es else none

/-- Modelled from the spec: "read-entry(position) → decompressed bytes";
performs decompression and returns the full decompressed payload. -/
def read_entry (es : List EraEntry) (i : Nat) : Except String (List Nat) :=
  match es[i]? with
  | some e => .ok (decompressBytes e.payload)
  | none => .error "entry index out of range"

/-- Modelled from the spec: "read-entry-compressed(position) →
(compressed bytes, decompressed size, integrity digest)" — the stored
compressed payload is returned verbatim, never decompressed. -/
def read_entry_compressed (es : List EraEntry) (i : Nat) :
    Except String (List Nat × Nat × Nat) :=
  match es[i]? with
  | some e => .ok (e.payload, e.decompSize, e.digest)
  | none => .error "entry index out of range"

/-- Modelled from the spec: the entry a writer's
`add_compressed_file(name, compressed bytes, decompressed size, digest)`
stages — the writer trusts the digest rather than recomputing it. -/
def mkCompressedEntry (name : String) (data : List Nat) (decompSize : Nat)
    (digest : Nat) : EraEntry :=
  ⟨some name, data, decompSize, data.length, digest⟩

/-- Modelled from the spec: the entry a writer's
`add_file(name, raw bytes)` stages — compression and digest computation
are performed internally. -/
def mkNewEntry (name : String) (data : List Nat) : EraEntry :=
  ⟨some name, compressBytes data, data.length, (compressBytes data).length,
    tigerOf (compressBytes data)⟩

/-- Modelled from the spec: the reserved filename-table entry (entry 0)
the writer emits first — it "stores the name mapping for all other
entries" and is never surfaced as a host-visible item. -/
def fntEntry (es : List EraEntry) : EraEntry :=
  ⟨none, (es.map (fun e => encStr (e.filename.getD ""))).flatten, 0, 0, 0⟩

/-! ## Plugin-contract types (from `sevenzip_plugin::prelude`) -/

/-- The plugin error taxonomy: `Error::Io`, `Error::InvalidFormat`,
`Error::IndexOutOfBounds { index, count }`, `Error::Other`. -/
inductive Error where
  | Io : String → Error
  | InvalidFormat : String → Error
  | IndexOutOfBounds : Nat → Nat → Error
  | Other : String → Error
  deriving Repr, DecidableEq

/-- The host-facing item descriptor built by
`ArchiveItem::file(&name, decomp_size).with_compressed_size(chunk_size)`. -/
structure ArchiveItem where
  name : String
  size : Nat
  compressedSize : Nat
  deriving Repr, DecidableEq

/-- An edit operation: `UpdateItem::CopyExisting { index, new_name }` or
`UpdateItem::AddNew { name, data }`. -/
inductive UpdateItem where
  | CopyExisting : Nat → Option String → UpdateItem
  | AddNew : String → List Nat → UpdateItem
  deriving Repr, DecidableEq

/-! ## The adapter state (`EraFormat`) -/

/-- `struct EraItem`: a host item plus the original ERA entry index. -/
structure EraItem where
  info : ArchiveItem
  era_index : Nat
  deriving Repr, DecidableEq

/-- `struct EraFormat`: the archive session state. `#[derive(Default)]`
gives the empty session. -/
structure EraFormat where
  archive : Option (List EraEntry)
  archive_data : Option (List Nat)
  items : List EraItem
  archive_size : Nat
  deriving Repr, DecidableEq

/-- The `Default` session: both options `None`, no items, size 0. -/
def emptyFmt : EraFormat := ⟨none, none, [], 0⟩

/-! ## Format identity -/

/-- `EraFormat::class_id`: the raw 16-byte GUID layout from the source. -/
def class_id : List Nat :=
  [0x78, 0x56, 0x34, 0x12,
   0xCD, 0xAB,
   0x01, 0xEF,
   0x23, 0x45, 0x67, 0x89, 0xAB, 0xCD, 0xEF, 0x01]

/-- Little-endian byte decomposition of a 32-bit value. -/
def leBytes32 (n : Nat) : List Nat :=
  [n % 256, n / 256 % 256, n / 65536 % 256, n / 16777216 % 256]

/-- Little-endian byte decomposition of a 16-bit value. -/
def leBytes16 (n : Nat) : List Nat :=
  [n % 256, n / 256 % 256]

/-- The claim's description of the layout: Data1, Data2, Data3 of
`{12345678-ABCD-EF01-...}` little-endian, then the 8 raw Data4 bytes. -/
def guidLayout : List Nat :=
  leBytes32 0x12345678 ++ leBytes16 0xABCD ++ leBytes16 0xEF01 ++
    [0x23, 0x45, 0x67, 0x89, 0xAB, 0xCD, 0xEF, 0x01]

/-! ## open -/

/-- The item built for container entry `i` inside `open`'s loop:
name = decoded filename if present, else `entry_<i>`; sizes copied from
the entry's metadata. -/
def mkItem (i : Nat) (e : EraEntry) : EraItem :=
  ⟨⟨e.filename.getD ("entry_" ++ toString i), e.decompSize, e.chunkSize⟩, i⟩

/-- `open`'s enumeration loop: skip entry 0 (filename table), push an
item for every later entry. -/
def buildItemsAux : Nat → List EraEntry → List EraItem
  | _, [] => []
  | i, e :: rest =>
      if i = 0 then buildItemsAux (i + 1) rest
      else mkItem i e :: buildItemsAux (i + 1) rest

/-- The full item list `open` builds from the parsed entries. -/
def buildItems (es : List EraEntry) : List EraItem :=
  buildItemsAux 0 es

/-- `EraFormat::open`: record the physical size, retain the raw bytes,
decrypt and parse; on parse failure return `InvalidFormat` (leaving the
fields already written); on success rebuild the item list and retain the
parsed archive. -/
def openArchive (s : EraFormat) (data : List Nat) (size : Nat) :
    EraFormat × Except Error Unit :=
  let s1 : EraFormat :=
    { s with archive_size := size, archive_data := some data }
  match parseArchive (decryptBytes data) with
  | none =>
      (s1, .error (.InvalidFormat "Failed to parse ERA: parse error"))
  | some es =>
      ({ s1 with items := buildItems es, archive := some es }, .ok ())

/-! ## item_count / get_item / extract / close / physical_size -/

/-- `EraFormat::item_count`. -/
def item_count (s : EraFormat) : Nat := s.items.length

/-- `EraFormat::get_item`. -/
def get_item (s : EraFormat) (index : Nat) : Option ArchiveItem :=
  (s.items[index]?).map (fun it => it.info)

/-- `EraFormat::extract`: resolve the item (Index-Out-Of-Bounds first),
require an open archive, then delegate to the container's entry read. -/
def extract (s : EraFormat) (index : Nat) : Except Error (List Nat) :=
  match s.items[index]? with
  | none => .error (.IndexOutOfBounds index s.items.length)
  | some it =>
      match s.archive with
      | none => .error (.Other "Archive not open")
      | some es =>
          match read_entry es it.era_index with
          | .ok data => .ok data
          | .error e =>
              .error (.Other ("Failed to read entry " ++
                toString it.era_index ++ ": " ++ e))

/-- `EraFormat::close`: unconditionally reset every session field. -/
def closeArchive (_s : EraFormat) : EraFormat :=
  ⟨none, none, [], 0⟩

/-- `EraFormat::physical_size`: always `Some(archive_size)`. -/
def physical_size (s : EraFormat) : Option Nat :=
  some s.archive_size

/-! ## update_streaming -/

/-- The outcome of staging one edit operation into the writer, exactly
as the loop body of `update_streaming` computes it: for Copy-Existing,
resolve the index (Index-Out-Of-Bounds), require the open archive, read
the compressed tuple, resolve the name, and stage a pre-compressed
entry; for Add-New, stage an ordinary compressed entry. -/
def opResult (s : EraFormat) : UpdateItem → Except Error EraEntry
  | .CopyExisting index new_name =>
      match s.items[index]? with
      | none => .error (.IndexOutOfBounds index s.items.length)
      | some it =>
          match s.archive with
          | none => .error (.Other "Archive not open")
          | some es =>
              match read_entry_compressed es it.era_index with
              | .error e => .error (.Other ("Failed to read entry: " ++ e))
              | .ok (c, d, t) =>
                  .ok (mkCompressedEntry
                    (match new_name with
                     | some n => n
                     | none =>
                         match s.items[index]? with
                         | some it2 => it2.info.name
                         | none => "entry_" ++ toString it.era_index)
                    c d t)
  | .AddNew name data => .ok (mkNewEntry name data)

/-- The update loop: stage each operation in order, propagating the
first failure. -/
def processUpdates (s : EraFormat) : List UpdateItem → Except Error (List EraEntry)
  | [] => .ok []
  | u :: rest =>
      match opResult s u with
      | .error e => .error e
      | .ok entry =>
          match processUpdates s rest with
          | .error e => .error e
          | .ok es => .ok (entry :: es)

/-- `EraFormat::update_streaming`: stage every operation (ignoring the
`_existing` stream arguments), serialize the writer's container
(filename table then entries), encrypt, and on success return the bytes
written to the sink together with their length; on failure nothing is
written. -/
def update_streaming (s : EraFormat) (_existing : List Nat)
    (_existing_size : Nat) (updates : List UpdateItem) :
    Except Error (List Nat × Nat) :=
  match processUpdates s updates with
  | .error e => .error e
  | .ok entries =>
      let output := encryptBytes (serializeEntries (fntEntry entries :: entries))
      .ok (output, output.length)

/-! ## Concrete inputs used by the witnesses below -/

/-- A concrete named entry (compressed payload of `[7, 8]`). -/
def wE1 : EraEntry := ⟨some "a", [2, 7, 8], 2, 3, 18⟩

/-- A concrete entry with no filename (compressed payload of `[9]`). -/
def wE2 : EraEntry := ⟨none, [1, 9], 1, 2, 11⟩

/-- A concrete well-formed container: filename table plus two entries. -/
def wEs : List EraEntry := [fntEntry [], wE1, wE2]

/-- The encrypted on-disk bytes of `wEs`. -/
def wData : List Nat := encryptBytes (serializeEntries wEs)

/-- The session state after opening `wData`. -/
def wS : EraFormat := (openArchive emptyFmt wData 42).1

/-- A container whose entry 1 has a present but empty decoded filename. -/
def c6Es : List EraEntry := [⟨none, [], 0, 0, 0⟩, ⟨some "", [0], 0, 1, 0⟩]

/-- The encrypted on-disk bytes of `c6Es`. -/
def c6Data : List Nat := encryptBytes (serializeEntries c6Es)

/-- A session state holding an item but no parsed archive handle. -/
def c8State : EraFormat := ⟨none, none, [⟨⟨"a", 1, 1⟩, 1⟩], 0⟩

/-- A concrete edit list: two copies (one renamed) around an add. -/
def w1Us : List UpdateItem :=
  [.CopyExisting 0 none, .AddNew "x" [1, 2, 3], .CopyExisting 1 (some "ren")]

/-- The entries `update_streaming` stages for `w1Us` over `wS`. -/
def w1Entries : List EraEntry := ((processUpdates wS w1Us).toOption).getD []

/-- The encrypted archive `update_streaming` emits for `w1Us` over `wS`. -/
def w1Out : List Nat :=
  encryptBytes (serializeEntries (fntEntry w1Entries :: w1Entries))

/-! ## Round-trip lemmas for the modelled collaborators -/

theorem decrypt_encrypt (xs : List Nat) : decryptBytes (encryptBytes xs) = xs := by
  simp [decryptBytes, encryptBytes, List.map_map, Function.comp_def,
    Nat.xor_cancel_right]

theorem decompress_compress (xs : List Nat) :
    decompressBytes (compressBytes xs) = xs := rfl

theorem decTake_append (xs rest : List Nat) :
    decTake xs.length (xs ++ rest) = some (xs, rest) := by
  simp [decTake, List.take_left, List.drop_left]

theorem decList_enc (xs rest : List Nat) :
    decList (encList xs ++ rest) = some (xs, rest) := by
  simp [decList, encList, decNat, decTake_append]

theorem decStr_enc (s : String) (rest : List Nat) :
    decStr (encStr s ++ rest) = some (s, rest) := by
  simp [decStr, encStr, decList_enc, List.map_map, Function.comp_def,
    Char.ofNat_toNat]

theorem decOptStr_enc (o : Option String) (rest : List Nat) :
    decOptStr (encOptStr o ++ rest) = some (o, rest) := by
  cases o with
  | none => simp [decOptStr, encOptStr, decNat]
  | some s => simp [decOptStr, encOptStr, decNat, decStr_enc]

theorem decEntry_enc (e : EraEntry) (rest : List Nat) :
    decEntry (encEntry e ++ rest) = some (e, rest) := by
  obtain ⟨fn, pl, ds, cs, dg⟩ := e
  simp [decEntry, encEntry, List.append_assoc, decOptStr_enc, decList_enc,
    decNat]

theorem decEntries_enc (es : List EraEntry) (rest : List Nat) :
    decEntries es.length ((es.map encEntry).flatten ++ rest) = some (es, rest) := by
  induction es generalizing rest with
  | nil => simp [decEntries]
  | cons e tl ih => simp [decEntries, List.append_assoc, decEntry_enc, ih]

theorem parseArchive_serialize (es : List EraEntry) :
    parseArchive (serializeEntries es) = some es := by
  have h := decEntries_enc es []
  rw [List.append_nil] at h
  simp [parseArchive, serializeEntries, decNat, h]

/-! ## Item-list lemmas -/

theorem buildItemsAux_get (es : List EraEntry) :
    ∀ i j, i ≠ 0 →
      (buildItemsAux i es)[j]? = es[j]?.map (mkItem (i + j)) := by
  induction es with
  | nil => intro i j _; simp [buildItemsAux]
  | cons e tl ih =>
    intro i j hi
    simp only [buildItemsAux, if_neg hi]
    cases j with
    | zero => simp
    | succ j' =>
      have h := ih (i + 1) j' (by omega)
      have harith : i + 1 + j' = i + (j' + 1) := by omega
      simpa [harith] using h

theorem buildItemsAux_length (es : List EraEntry) :
    ∀ i, i ≠ 0 → (buildItemsAux i es).length = es.length := by
  induction es with
  | nil => intro i _; simp [buildItemsAux]
  | cons e tl ih =>
    intro i hi
    simp only [buildItemsAux, if_neg hi, List.length_cons]
    rw [ih (i + 1) (by omega)]

theorem buildItems_get (es : List EraEntry) (j : Nat) :
    (buildItems es)[j]? = es[j + 1]?.map (mkItem (j + 1)) := by
  cases es with
  | nil => simp [buildItems, buildItemsAux]
  | cons e tl =>
    have h := buildItemsAux_get tl 1 j (by omega)
    have harith : 1 + j = j + 1 := by omega
    rw [harith] at h
    simpa [buildItems, buildItemsAux] using h

theorem buildItems_length (es : List EraEntry) :
    (buildItems es).length = es.length - 1 := by
  cases es with
  | nil => rfl
  | cons e tl =>
    show (buildItemsAux 1 tl).length = (e :: tl).length - 1
    rw [buildItemsAux_length tl 1 (by omega)]
    simp

/-! ## Update-loop lemmas -/

theorem processUpdates_ok (s : EraFormat) :
    ∀ us entries, processUpdates s us = .ok entries →
      entries.length = us.length ∧
      ∀ (j : Nat) (u : UpdateItem), us[j]? = some u →
        ∃ entry, entries[j]? = some entry ∧ opResult s u = .ok entry := by
  intro us
  induction us with
  | nil =>
    intro entries h
    simp only [processUpdates, Except.ok.injEq] at h
    subst h
    exact ⟨rfl, by intro j u hj; simp at hj⟩
  | cons u tl ih =>
    intro entries h
    simp only [processUpdates] at h
    cases hop : opResult s u with
    | error e => rw [hop] at h; exact absurd h (by simp)
    | ok entry =>
      rw [hop] at h
      cases htl : processUpdates s tl with
      | error e => rw [htl] at h; exact absurd h (by simp)
      | ok es2 =>
        rw [htl] at h
        simp only [Except.ok.injEq] at h
        subst h
        obtain ⟨hlen, hall⟩ := ih es2 htl
        refine ⟨by simp [hlen], ?_⟩
        intro j v hj
        cases j with
        | zero =>
          simp only [List.getElem?_cons_zero] at hj
          injection hj with hj'
          subst hj'
          exact ⟨entry, by simp, hop⟩
        | succ j' =>
          rw [List.getElem?_cons_succ] at hj
          obtain ⟨ent, h1, h2⟩ := hall j' v hj
          exact ⟨ent, by simpa using h1, h2⟩

theorem processUpdates_error (s : EraFormat) :
    ∀ us e, processUpdates s us = .error e →
      ∃ (j : Nat) (u : UpdateItem), us[j]? = some u ∧ opResult s u = .error e ∧
        ∀ (k : Nat) (v : UpdateItem), k < j → us[k]? = some v →
          ∃ ent, opResult s v = .ok ent := by
  intro us
  induction us with
  | nil => intro e h; simp [processUpdates] at h
  | cons u tl ih =>
    intro e h
    simp only [processUpdates] at h
    cases hop : opResult s u with
    | error e1 =>
      rw [hop] at h
      injection h with h'
      subst h'
      exact ⟨0, u, by simp, hop, by intro k v hk _; omega⟩
    | ok entry =>
      rw [hop] at h
      cases htl : processUpdates s tl with
      | error e2 =>
        rw [htl] at h
        injection h with h'
        subst h'
        obtain ⟨j, u', hj, herr, hpre⟩ := ih e2 htl
        refine ⟨j + 1, u', by simpa using hj, herr, ?_⟩
        intro k v hk hkv
        cases k with
        | zero =>
          simp only [List.getElem?_cons_zero] at hkv
          injection hkv with hv
          subst hv
          exact ⟨entry, hop⟩
        | succ k' =>
          rw [List.getElem?_cons_succ] at hkv
          exact hpre k' v (by omega) hkv
      | ok es2 => rw [htl] at h; exact absurd h (by simp)

theorem opResult_copy_ok (s : EraFormat) (index : Nat) (nn : Option String)
    (entry : EraEntry)
    (h : opResult s (.CopyExisting index nn) = .ok entry) :
    ∃ it es e, s.items[index]? = some it ∧ s.archive = some es ∧
      es[it.era_index]? = some e ∧
      entry = mkCompressedEntry (nn.getD it.info.name) e.payload e.decompSize
        e.digest := by
  simp only [opResult] at h
  split at h
  next hit => exact absurd h (by simp)
  next it hit =>
    split at h
    next har => exact absurd h (by simp)
    next es har =>
      split at h
      next e hread => exact absurd h (by simp)
      next c d t hread =>
        unfold read_entry_compressed at hread
        split at hread
        next e he =>
          injection hread with hread'
          simp only [Prod.mk.injEq] at hread'
          obtain ⟨hc, hrest⟩ := hread'
          obtain ⟨hd, ht⟩ := hrest
          subst hc
          subst hd
          subst ht
          refine ⟨it, es, e, hit, har, he, ?_⟩
          injection h with h'
          rw [← h']
          cases nn with
          | none => simp [hit, Option.getD]
          | some n => simp [Option.getD]
        next hnone => exact absurd hread (by simp)

theorem extract_of_entry (s : EraFormat) (index : Nat) (it : EraItem)
    (es : List EraEntry) (e : EraEntry)
    (h1 : s.items[index]? = some it) (h2 : s.archive = some es)
    (h3 : es[it.era_index]? = some e) :
    extract s index = .ok (decompressBytes e.payload) := by
  simp [extract, h1, h2, read_entry, h3]

/-! ## The claims -/

/-- C9: `class_id` always returns exactly the 16 bytes
`[0x78, 0x56, 0x34, 0x12, 0xCD, 0xAB, 0x01, 0xEF, 0x23, 0x45, 0x67,
0x89, 0xAB, 0xCD, 0xEF, 0x01]`, which is Data1/Data2/Data3 of the GUID
`{12345678-ABCD-EF01-...}` in little-endian byte order followed by the 8
raw Data4 bytes; it is a pure constant, so it is identical on every
invocation and for every adapter instance. -/
theorem era_c9_class_id :
    class_id = [0x78, 0x56, 0x34, 0x12, 0xCD, 0xAB, 0x01, 0xEF,
      0x23, 0x45, 0x67, 0x89, 0xAB, 0xCD, 0xEF, 0x01] ∧
    class_id = guidLayout ∧ class_id.length = 16 :=
  ⟨rfl, by decide, rfl⟩

/-- C7: `close` unconditionally resets the session to the empty state —
no archive handle, no raw byte copy, empty item list, physical size
zero — regardless of prior state; it is a no-op on an already-closed
session, and immediately afterwards `item_count` returns 0 and
`physical_size` returns 0. -/
theorem era_c7_close (s : EraFormat) :
    closeArchive s = emptyFmt ∧
    closeArchive (closeArchive s) = closeArchive s ∧
    item_count (closeArchive s) = 0 ∧
    physical_size (closeArchive s) = some 0 :=
  ⟨rfl, rfl, rfl, rfl⟩

/-- C10: the outcome of `update_streaming` is independent of its
`_existing` stream and `_existing_size` arguments — two calls differing
only in those two arguments are equal, because the operation reads only
the session state populated by the prior `open`. -/
theorem era_c10_existing_ignored (s : EraFormat) (ex1 ex2 : List Nat)
    (n1 n2 : Nat) (us : List UpdateItem) :
    update_streaming s ex1 n1 us = update_streaming s ex2 n2 us := rfl

/-- C4: for every index at or past the item count, both `extract` and
`update_streaming` with a Copy-Existing operation referencing that index
fail with an Index-Out-Of-Bounds error carrying the requested index and
the current item count. -/
theorem era_c4_oob (s : EraFormat) (index : Nat)
    (h : item_count s ≤ index) (nn : Option String) (ex : List Nat)
    (nsz : Nat) (rest : List UpdateItem) :
    extract s index = .error (.IndexOutOfBounds index (item_count s)) ∧
    update_streaming s ex nsz (.CopyExisting index nn :: rest) =
      .error (.IndexOutOfBounds index (item_count s)) := by
  have hnone : s.items[index]? = none := List.getElem?_eq_none h
  constructor
  · simp [extract, hnone, item_count]
  · simp [update_streaming, processUpdates, opResult, hnone, item_count]

/-- Witness for C4 at the empty session and index 0. -/
theorem era_c4_witness :
    extract emptyFmt 0 = .error (.IndexOutOfBounds 0 0) ∧
    update_streaming emptyFmt [] 0 [.CopyExisting 0 none] =
      .error (.IndexOutOfBounds 0 0) :=
  era_c4_oob emptyFmt 0 (by decide) none [] 0 []

/-- C8 counterexample: on the empty session (no parsed archive handle),
`extract 0` fails with Index-Out-Of-Bounds, not with the generic
"not open" error — the item lookup precedes the open-archive check. -/
theorem era_c8_counterexample :
    emptyFmt.archive = none ∧
    extract emptyFmt 0 = .error (.IndexOutOfBounds 0 0) ∧
    ¬ extract emptyFmt 0 = .error (.Other "Archive not open") := by
  refine ⟨rfl, rfl, ?_⟩
  intro hcon
  simp [extract, emptyFmt] at hcon

/-- C8 (amended): when the session holds no parsed archive handle,
`extract index` fails with the generic "not open" error for every index
within the item list's bounds; for an index at or past the item count,
Index-Out-Of-Bounds takes precedence. -/
theorem era_c8_not_open (s : EraFormat) (index : Nat)
    (h1 : s.archive = none) (h2 : index < s.items.length) :
    extract s index = .error (.Other "Archive not open") := by
  have hsome : s.items[index]? = some s.items[index] :=
    List.getElem?_eq_getElem h2
  simp [extract, hsome, h1]

/-- Witness for the amended C8: a session holding one item but no
archive handle. -/
theorem era_c8_witness :
    extract c8State 0 = .error (.Other "Archive not open") :=
  era_c8_not_open c8State 0 rfl (by decide)

/-- C3 counterexample: opening unparseable bytes (the empty input) from
the empty session returns Invalid-Format, but the session does not
remain empty — the raw byte copy is retained and the physical size is
recorded. -/
theorem era_c3_counterexample :
    (openArchive emptyFmt [] 5).2 =
      .error (.InvalidFormat "Failed to parse ERA: parse error") ∧
    (openArchive emptyFmt [] 5).1.archive_data = some [] ∧
    (openArchive emptyFmt [] 5).1.archive_size = 5 ∧
    (openArchive emptyFmt [] 5).1 ≠ emptyFmt := by
  refine ⟨rfl, rfl, rfl, by decide⟩

/-- C3 (amended): on parse failure `open` returns an Invalid-Format
error carrying a diagnostic message, and leaves the archive handle and
the item list untouched (for an initially empty session: no handle and
an empty item list) — but the physical size is recorded and the raw
byte copy is retained, so the session is not left fully empty. -/
theorem era_c3_parse_failure (s : EraFormat) (data : List Nat)
    (size : Nat) (h : parseArchive (decryptBytes data) = none) :
    openArchive s data size =
      ({ s with archive_size := size, archive_data := some data },
        .error (.InvalidFormat "Failed to parse ERA: parse error")) := by
  simp [openArchive, h]

/-- Witness for the amended C3 at the empty input. -/
theorem era_c3_witness :
    parseArchive (decryptBytes []) = none ∧
    openArchive emptyFmt [] 5 =
      (⟨none, some [], [], 5⟩,
        .error (.InvalidFormat "Failed to parse ERA: parse error")) :=
  ⟨rfl, era_c3_parse_failure emptyFmt [] 5 rfl⟩

/-- C6 counterexample: a valid container whose entry 1 carries a
present but empty decoded filename opens successfully and yields an item
whose name is the empty string — refuting "every item has a non-empty
name". -/
theorem era_c6_counterexample :
    (openArchive emptyFmt c6Data 0).2 = .ok () ∧
    get_item (openArchive emptyFmt c6Data 0).1 0 = some ⟨"", 0, 1⟩ := by
  exact ⟨rfl, by decide⟩

/-- C6 (amended): after a successful `open` the items are exactly the
container entries excluding entry position 0, in original order, so the
item count is the total entry count minus 1; each item's name is the
entry's decoded filename if present and otherwise the placeholder
`entry_<position>`, and the decompressed and compressed sizes are copied
verbatim from the entry's metadata. Every item whose entry lacks a
filename has a non-empty placeholder name; an item whose entry carries
an empty decoded filename has an empty name. -/
theorem era_c6_open_items (s : EraFormat) (data : List Nat) (size : Nat)
    (es : List EraEntry) (h : parseArchive (decryptBytes data) = some es) :
    openArchive s data size =
      (⟨some es, some data, buildItems es, size⟩, .ok ()) ∧
    item_count (openArchive s data size).1 = es.length - 1 ∧
    (∀ j : Nat, (openArchive s data size).1.items[j]? =
        es[j + 1]?.map (mkItem (j + 1))) ∧
    (∀ (j : Nat) (it : EraItem),
        (openArchive s data size).1.items[j]? = some it →
        ∃ e, es[j + 1]? = some e ∧
          it.info.name = e.filename.getD ("entry_" ++ toString (j + 1)) ∧
          it.info.size = e.decompSize ∧
          it.info.compressedSize = e.chunkSize ∧
          it.era_index = j + 1 ∧
          (e.filename = none → it.info.name ≠ "")) := by
  have hopen : openArchive s data size =
      (⟨some es, some data, buildItems es, size⟩, .ok ()) := by
    simp [openArchive, h]
  refine ⟨hopen, ?_, ?_, ?_⟩
  · rw [hopen]
    simp [item_count, buildItems_length]
  · intro j
    rw [hopen]
    exact buildItems_get es j
  · intro j it hit
    rw [hopen] at hit
    simp only at hit
    rw [buildItems_get] at hit
    cases he : es[j + 1]? with
    | none => rw [he] at hit; simp at hit
    | some e =>
      rw [he] at hit
      simp only [Option.map_some'] at hit
      injection hit with hit'
      subst hit'
      refine ⟨e, rfl, rfl, rfl, rfl, rfl, ?_⟩
      intro hfn hcon
      simp only [mkItem, hfn, Option.getD_none] at hcon
      have hlen := congrArg String.length hcon
      rw [String.length_append] at hlen
      have h6 : ("entry_" : String).length = 6 := rfl
      have h0 : ("" : String).length = 0 := rfl
      rw [h6, h0] at hlen
      omega

/-- Witness for the amended C6 on the concrete container `wEs`. -/
theorem era_c6_witness :
    parseArchive (decryptBytes wData) = some wEs ∧
    item_count (openArchive emptyFmt wData 42).1 = 2 ∧
    get_item (openArchive emptyFmt wData 42).1 0 = some ⟨"a", 2, 3⟩ ∧
    get_item (openArchive emptyFmt wData 42).1 1 =
      some ⟨"entry_2", 1, 2⟩ := by
  refine ⟨by decide, ?_, by decide, by decide⟩
  exact (era_c6_open_items emptyFmt wData 42 wEs (by decide)).2.1

/-- C2: for a Copy-Existing operation whose index resolves to an item,
the staged entry carries exactly the tuple `read_entry_compressed`
returned from the open source container — the stored compressed payload,
decompressed size and digest, verbatim and never decompressed — and its
name is the supplied replacement name if present, else the original
item's name (the `entry_<position>` placeholder arm is unreachable here
because the item lookup succeeded). -/
theorem era_c2_copy (s : EraFormat) (index : Nat) (nn : Option String)
    (it : EraItem) (es : List EraEntry) (c : List Nat) (d t : Nat)
    (h1 : s.items[index]? = some it) (h2 : s.archive = some es)
    (h3 : read_entry_compressed es it.era_index = .ok (c, d, t)) :
    (∃ e, es[it.era_index]? = some e ∧ c = e.payload ∧
        d = e.decompSize ∧ t = e.digest) ∧
    opResult s (.CopyExisting index nn) =
      .ok (mkCompressedEntry (nn.getD it.info.name) c d t) := by
  constructor
  · cases he : es[it.era_index]? with
    | none => simp [read_entry_compressed, he] at h3
    | some e =>
      simp only [read_entry_compressed, he, Except.ok.injEq,
        Prod.mk.injEq] at h3
      exact ⟨e, rfl, h3.1.symm, h3.2.1.symm, h3.2.2.symm⟩
  · cases nn with
    | none => simp [opResult, h1, h2, h3, Option.getD]
    | some n => simp [opResult, h1, h2, h3, Option.getD]

/-- Witness for C2: copying item 0 of the opened `wS` with a rename. -/
theorem era_c2_witness :
    wS.items[0]? = some ⟨⟨"a", 2, 3⟩, 1⟩ ∧
    wS.archive = some wEs ∧
    read_entry_compressed wEs 1 = .ok ([2, 7, 8], 2, 18) ∧
    opResult wS (.CopyExisting 0 (some "ren")) =
      .ok (mkCompressedEntry "ren" [2, 7, 8] 2 18) := by
  refine ⟨by decide, rfl, rfl, ?_⟩
  exact (era_c2_copy wS 0 (some "ren") ⟨⟨"a", 2, 3⟩, 1⟩ wEs [2, 7, 8] 2 18
    (by decide) rfl rfl).2

/-- C5: `update_streaming` has no partial-success mode. If staging any
operation fails, the first such failure is the returned error and
nothing is written to the sink (the error outcome carries no output
bytes); on success the complete encrypted byte sequence — the encrypted
serialization of the staged container — is written in full and its
length is the returned value. -/
theorem era_c5_atomic (s : EraFormat) (ex : List Nat) (nsz : Nat)
    (us : List UpdateItem) :
    (∀ e, processUpdates s us = .error e →
      update_streaming s ex nsz us = .error e ∧
      ∃ (j : Nat) (u : UpdateItem), us[j]? = some u ∧
        opResult s u = .error e ∧
        ∀ (k : Nat) (v : UpdateItem), k < j → us[k]? = some v →
          ∃ ent, opResult s v = .ok ent) ∧
    (∀ entries, processUpdates s us = .ok entries →
      update_streaming s ex nsz us =
        .ok (encryptBytes (serializeEntries (fntEntry entries :: entries)),
          (encryptBytes
            (serializeEntries (fntEntry entries :: entries))).length)) := by
  constructor
  · intro e he
    refine ⟨?_, processUpdates_error s us e he⟩
    simp [update_streaming, he]
  · intro entries he
    simp [update_streaming, he]

/-- Witness for C5: a failing edit list returns its first error with no
output, and a succeeding one returns the full encrypted bytes and their
length. -/
theorem era_c5_witness :
    update_streaming emptyFmt [] 0 [.CopyExisting 0 none] =
      .error (.IndexOutOfBounds 0 0) ∧
    update_streaming wS [] 0 [.AddNew "x" [5]] =
      .ok (encryptBytes (serializeEntries
            [fntEntry [mkNewEntry "x" [5]], mkNewEntry "x" [5]]),
          (encryptBytes (serializeEntries
            [fntEntry [mkNewEntry "x" [5]], mkNewEntry "x" [5]])).length) :=
  ⟨((era_c5_atomic emptyFmt [] 0 [.CopyExisting 0 none]).1
      (.IndexOutOfBounds 0 0) rfl).1,
    (era_c5_atomic wS [] 0 [.AddNew "x" [5]]).2 [mkNewEntry "x" [5]] rfl⟩

/-- C1: an archive produced by `update_streaming`, when subsequently
opened and every item extracted, yields for each Copy-Existing operation
byte-for-byte the decompressed content the referenced original entry
would have produced on extraction, and for each Add-New(name, data)
operation byte-for-byte the raw data supplied. -/
theorem era_c1_roundtrip (s : EraFormat) (ex : List Nat) (nsz : Nat)
    (us : List UpdateItem) (out : List Nat) (len : Nat)
    (s0 : EraFormat) (sz2 : Nat)
    (hu : update_streaming s ex nsz us = .ok (out, len)) :
    (openArchive s0 out sz2).2 = .ok () ∧
    item_count (openArchive s0 out sz2).1 = us.length ∧
    ∀ (j : Nat) (u : UpdateItem), us[j]? = some u →
      match u with
      | .CopyExisting i _ =>
          extract (openArchive s0 out sz2).1 j = extract s i
      | .AddNew _ d => extract (openArchive s0 out sz2).1 j = .ok d := by
  simp only [update_streaming] at hu
  cases hp : processUpdates s us with
  | error e => rw [hp] at hu; exact absurd hu (by simp)
  | ok entries =>
    rw [hp] at hu
    simp only [Except.ok.injEq, Prod.mk.injEq] at hu
    obtain ⟨hout, hlen⟩ := hu
    subst hout
    have hparse : parseArchive (decryptBytes (encryptBytes
        (serializeEntries (fntEntry entries :: entries)))) =
        some (fntEntry entries :: entries) := by
      rw [decrypt_encrypt, parseArchive_serialize]
    have hopen : openArchive s0 (encryptBytes
        (serializeEntries (fntEntry entries :: entries))) sz2 =
        (⟨some (fntEntry entries :: entries),
          some (encryptBytes
            (serializeEntries (fntEntry entries :: entries))),
          buildItems (fntEntry entries :: entries), sz2⟩, .ok ()) := by
      simp [openArchive, hparse]
    obtain ⟨hlen2, hall⟩ := processUpdates_ok s us entries hp
    refine ⟨by rw [hopen], ?_, ?_⟩
    · rw [hopen]
      simp [item_count, buildItems_length, hlen2]
    · intro j u hj
      obtain ⟨entry, hje, hop⟩ := hall j u hj
      have hitems : (openArchive s0 (encryptBytes
          (serializeEntries (fntEntry entries :: entries))) sz2).1.items[j]? =
          some (mkItem (j + 1) entry) := by
        rw [hopen]
        simp only
        rw [buildItems_get]
        simp [List.getElem?_cons_succ, hje]
      have harch : (openArchive s0 (encryptBytes
          (serializeEntries (fntEntry entries :: entries))) sz2).1.archive =
          some (fntEntry entries :: entries) := by
        rw [hopen]
      have hread : (fntEntry entries ::
          entries)[(mkItem (j + 1) entry).era_index]? = some entry := by
        simp [mkItem, List.getElem?_cons_succ, hje]
      have hextract := extract_of_entry _ j (mkItem (j + 1) entry) _ entry
        hitems harch hread
      cases u with
      | AddNew name d =>
        have hentry : entry = mkNewEntry name d := by
          simp only [opResult, Except.ok.injEq] at hop
          exact hop.symm
        show extract (openArchive s0 (encryptBytes
            (serializeEntries (fntEntry entries :: entries))) sz2).1 j =
          .ok d
        rw [hextract, hentry]
        simp [mkNewEntry, decompress_compress]
      | CopyExisting i nn2 =>
        obtain ⟨it, es1, e, hi1, hi2, hi3, hentry⟩ :=
          opResult_copy_ok s i nn2 entry hop
        have hsrc := extract_of_entry s i it es1 e hi1 hi2 hi3
        show extract (openArchive s0 (encryptBytes
            (serializeEntries (fntEntry entries :: entries))) sz2).1 j =
          extract s i
        rw [hextract, hsrc, hentry]
        rfl

/-- Witness for C1: the concrete edit list `w1Us` over the opened
session `wS`, reopened and extracted item by item. -/
theorem era_c1_witness :
    update_streaming wS [] 0 w1Us = .ok (w1Out, w1Out.length) ∧
    (openArchive emptyFmt w1Out 0).2 = .ok () ∧
    extract (openArchive emptyFmt w1Out 0).1 0 = extract wS 0 ∧
    extract (openArchive emptyFmt w1Out 0).1 1 = .ok [1, 2, 3] ∧
    extract (openArchive emptyFmt w1Out 0).1 2 = extract wS 1 := by
  have h := era_c1_roundtrip wS [] 0 w1Us w1Out w1Out.length emptyFmt 0 rfl
  exact ⟨rfl, h.1, h.2.2 0 (.CopyExisting 0 none) rfl,
    h.2.2 1 (.AddNew "x" [1, 2, 3]) rfl,
    h.2.2 2 (.CopyExisting 1 (some "ren")) rfl⟩

end Era
